import Mathlib

/-!
Verification of the core source scanner of the AuditX repository
(`src/lib/solidityAnalyzer.ts`), shallowly embedded in Lean.

Strings are modelled by Lean `String` (lists of characters); the JavaScript
regular expressions used by the analyzer are hand-compiled into explicit
matching functions over `List Char`.  Each matcher `...At` returns, for a
given suffix of the subject, `some k` when the regular expression matches at
the start of that suffix with match length `k` (the length JavaScript's
engine would report: leftmost alternative first, greedy quantifiers), and
`none` otherwise.  JavaScript numbers appearing in the scoring code are
modelled as exact rationals (`ℚ`).
-/

namespace AuditX

/-- JavaScript regex `\w` character class: `[A-Za-z0-9_]`. -/
def isWordChar (c : Char) : Bool := c.isAlphanum || c = '_'

/-- JavaScript regex `\s` character class (ASCII part, which is all the
analyzer's subjects use): space, tab, newline, carriage return, vertical
tab, form feed. -/
def isJsSpace (c : Char) : Bool :=
  c = ' ' || c = '\t' || c = '\n' || c = '\r' || c = '\x0b' || c = '\x0c'

/-- The arithmetic-operator class `[\+\-\*\/\%]` of the overflow detector. -/
def isOpChar (c : Char) : Bool :=
  c = '+' || c = '-' || c = '*' || c = '/' || c = '%'

/-- Match a literal character sequence at the start of `cs`; on success
return the remaining suffix. -/
def litM : List Char → List Char → Option (List Char)
  | [], cs => some cs
  | _ :: _, [] => none
  | p :: ps, c :: cs => if c = p then litM ps cs else none

/-- Greedily take characters satisfying `p`; return how many were taken and
the remaining suffix (the semantics of a greedy `X*` over a character
class). -/
def spanCount (p : Char → Bool) : List Char → Nat × List Char
  | [] => (0, [])
  | c :: cs =>
    if p c then
      let r := spanCount p cs
      (r.1 + 1, r.2)
    else (0, c :: cs)

/-- Greedy `X+` over a character class: at least one character. -/
def span1 (p : Char → Bool) (cs : List Char) : Option (Nat × List Char) :=
  match cs with
  | [] => none
  | c :: cs' =>
    if p c then
      let r := spanCount p cs'
      some (r.1 + 1, r.2)
    else none

/-- Search for the leftmost match of `m` in a suffix whose first character
has absolute position `p`; return absolute (start, end) positions.  This is
how a (non-sticky) JavaScript regex scans a subject: try each start
position from left to right. -/
def findMatchGo (m : List Char → Option Nat) : List Char → Nat → Option (Nat × Nat)
  | [], p =>
    match m [] with
    | some k => some (p, p + k)
    | none => none
  | c :: cs, p =>
    match m (c :: cs) with
    | some k => some (p, p + k)
    | none => findMatchGo m cs (p + 1)

/-- `regex.test(s)` for a regex without the `g` flag: stateless search. -/
def testR (m : List Char → Option Nat) (s : List Char) : Bool :=
  (findMatchGo m s 0).isSome

/-- `regex.test(s)` for a `g`-flagged regex object: the search starts at the
regex's `lastIndex`; on success `lastIndex` becomes the match end, on
failure it is reset to `0` (ECMAScript `RegExpBuiltinExec`).  Returns the
test result together with the new `lastIndex`. -/
def testG (m : List Char → Option Nat) (s : List Char) (lastIndex : Nat) : Bool × Nat :=
  if s.length < lastIndex then (false, 0)
  else
    match findMatchGo m (s.drop lastIndex) lastIndex with
    | some (_, e) => (true, e)
    | none => (false, 0)

/-- Matcher for a literal string (used both for literal regexes and for
JavaScript's `String.prototype.includes`). -/
def litAt (pre : List Char) (cs : List Char) : Option Nat :=
  (litM pre cs).map fun _ => pre.length

/-- `s.includes(sub)` of JavaScript. -/
def containsStr (sub : String) (s : String) : Bool :=
  testR (litAt sub.data) s.data

/-- Case-insensitive literal match (for the `/i` flag, ASCII letters). -/
def litCIM : List Char → List Char → Option (List Char)
  | [], cs => some cs
  | _ :: _, [] => none
  | p :: ps, c :: cs => if c.toLower = p.toLower then litCIM ps cs else none

/-! ### The analyzer's regular expressions, hand-compiled

Each definition is named after the regex it implements and follows the
regex left to right. -/

/-- `\.call\{value:\s*[^}]+\}` — after the literal `.call{value:` the greedy
`\s*[^}]+` is, as a whole, exactly a nonempty greedy run of non-`}`
characters (every `\s` character is also `[^}]`, and the backtracking
between the two quantifiers does not change the overall extent), followed
by `}`. -/
def callValueBraceAt (cs : List Char) : Option Nat :=
  match litM ".call\x7bvalue:".data cs with
  | none => none
  | some rest =>
    let r := spanCount (fun c => !(c = '\x7d')) rest
    if r.1 = 0 then none
    else
      match r.2 with
      | '\x7d' :: _ => some (12 + r.1 + 1)
      | _ => none

/-- `\.call\.value\(` -/
def callDotValueAt (cs : List Char) : Option Nat := litAt ".call.value(".data cs

/-- `\.send\(` -/
def sendAt (cs : List Char) : Option Nat := litAt ".send(".data cs

/-- `\.transfer\(` -/
def transferAt (cs : List Char) : Option Nat := litAt ".transfer(".data cs

/-- `(\w+)\s*[\+\-\*\/\%]\s*(\w+)` — the quantified pieces are over disjoint
character classes, so greedy matching is deterministic. -/
def mathAt (cs : List Char) : Option Nat :=
  match span1 isWordChar cs with
  | none => none
  | some (n1, r1) =>
    let s1 := spanCount isJsSpace r1
    match s1.2 with
    | [] => none
    | c :: r3 =>
      if isOpChar c then
        let s2 := spanCount isJsSpace r3
        match span1 isWordChar s2.2 with
        | some (n2, _) => some (n1 + s1.1 + 1 + s2.1 + n2)
        | none => none
      else none

/-- `SafeMath|using\s+SafeMath` with the `/i` flag. -/
def safeMathAt (cs : List Char) : Option Nat :=
  match litCIM "SafeMath".data cs with
  | some _ => some 8
  | none =>
    match litCIM "using".data cs with
    | none => none
    | some r1 =>
      match span1 isJsSpace r1 with
      | none => none
      | some (w, r2) =>
        match litCIM "SafeMath".data r2 with
        | some _ => some (5 + w + 8)
        | none => none

/-- `pragma\s+solidity\s+[\^>]?0\.([8-9]|\d{2,})` -/
def pragmaAt (cs : List Char) : Option Nat :=
  match litM "pragma".data cs with
  | none => none
  | some r1 =>
    match span1 isJsSpace r1 with
    | none => none
    | some (w1, r2) =>
      match litM "solidity".data r2 with
      | none => none
      | some r3 =>
        match span1 isJsSpace r3 with
        | none => none
        | some (w2, r4) =>
          -- `[\^>]?`: consume one `^`/`>` if present (if the following `0.`
          -- then fails, the zero-width alternative fails as well, since the
          -- unconsumed `^`/`>` is not `0`).
          let opt : Nat × List Char :=
            match r4 with
            | c :: r5 => if c = '^' || c = '>' then (1, r5) else (0, c :: r5)
            | [] => (0, [])
          match litM "0.".data opt.2 with
          | none => none
          | some r6 =>
            match r6 with
            | [] => none
            | d :: r7 =>
              -- `([8-9]|\d{2,})`: first alternative one digit 8 or 9,
              -- second at least two digits.
              if d = '8' || d = '9' then some (6 + w1 + 8 + w2 + opt.1 + 2 + 1)
              else if d.isDigit then
                match r7 with
                | e :: r8 =>
                  if e.isDigit then
                    let more := spanCount Char.isDigit r8
                    some (6 + w1 + 8 + w2 + opt.1 + 2 + 2 + more.1)
                  else none
                | [] => none
              else none

/-- `for\s*\(` -/
def forAt (cs : List Char) : Option Nat :=
  match litM "for".data cs with
  | none => none
  | some r =>
    let s := spanCount isJsSpace r
    match s.2 with
    | '(' :: _ => some (3 + s.1 + 1)
    | _ => none

/-- `\w+\[\w*\]\s*=` -/
def storageAt (cs : List Char) : Option Nat :=
  match span1 isWordChar cs with
  | none => none
  | some (n1, r1) =>
    match r1 with
    | '[' :: r2 =>
      let s1 := spanCount isWordChar r2
      match s1.2 with
      | ']' :: r3 =>
        let s2 := spanCount isJsSpace r3
        match s2.2 with
        | '=' :: _ => some (n1 + 1 + s1.1 + 1 + s2.1 + 1)
        | _ => none
      | _ => none
    | _ => none

/-- `function\s+\w+\s*\([^)]*\)\s*(public|external)` -/
def funcPubExtAt (cs : List Char) : Option Nat :=
  match litM "function".data cs with
  | none => none
  | some r1 =>
    match span1 isJsSpace r1 with
    | none => none
    | some (w1, r2) =>
      match span1 isWordChar r2 with
      | none => none
      | some (n1, r3) =>
        let s1 := spanCount isJsSpace r3
        match s1.2 with
        | '(' :: r4 =>
          let args := spanCount (fun c => !(c = ')')) r4
          match args.2 with
          | ')' :: r5 =>
            let s2 := spanCount isJsSpace r5
            let base := 8 + w1 + n1 + s1.1 + 1 + args.1 + 1 + s2.1
            match litM "public".data s2.2 with
            | some _ => some (base + 6)
            | none =>
              match litM "external".data s2.2 with
              | some _ => some (base + 8)
              | none => none
          | _ => none
        | _ => none

/-- `function\s+\w+` -/
def funcNameAt (cs : List Char) : Option Nat :=
  match litM "function".data cs with
  | none => none
  | some r1 =>
    match span1 isJsSpace r1 with
    | none => none
    | some (w, r2) =>
      match span1 isWordChar r2 with
      | some (n, _) => some (8 + w + n)
      | none => none

/-- `require\s*\(\s*msg\.sender` -/
def reqMsgSenderAt (cs : List Char) : Option Nat :=
  match litM "require".data cs with
  | none => none
  | some r1 =>
    let s1 := spanCount isJsSpace r1
    match s1.2 with
    | '(' :: r2 =>
      let s2 := spanCount isJsSpace r2
      match litM "msg.sender".data s2.2 with
      | some _ => some (7 + s1.1 + 1 + s2.1 + 10)
      | none => none
    | _ => none

/-- `onlyOwner|require\s*\(\s*msg\.sender|modifier` (the detector's
`modifierPattern`). -/
def modifierPatAt (cs : List Char) : Option Nat :=
  match litAt "onlyOwner".data cs with
  | some k => some k
  | none =>
    match reqMsgSenderAt cs with
    | some k => some k
    | none => litAt "modifier".data cs

/-- `require\s*\(\s*msg\.sender|onlyOwner` (the in-body guard pattern of
`hasAccessControlInFunction`). -/
def guardPatAt (cs : List Char) : Option Nat :=
  match reqMsgSenderAt cs with
  | some k => some k
  | none => litAt "onlyOwner".data cs

/-- `\/\/\/|\/\*\*` (NatSpec markers). -/
def natspecAt (cs : List Char) : Option Nat :=
  match litAt "///".data cs with
  | some k => some k
  | none => litAt "/**".data cs

/-- `\w+\s*=` (first state-mutation pattern). -/
def wAssignAt (cs : List Char) : Option Nat :=
  match span1 isWordChar cs with
  | none => none
  | some (n, r) =>
    let s := spanCount isJsSpace r
    match s.2 with
    | '=' :: _ => some (n + s.1 + 1)
    | _ => none

/-- `\w+\+\+` -/
def wIncAt (cs : List Char) : Option Nat :=
  match span1 isWordChar cs with
  | none => none
  | some (n, r) =>
    match litM "++".data r with
    | some _ => some (n + 2)
    | none => none

/-- `\w+--` -/
def wDecAt (cs : List Char) : Option Nat :=
  match span1 isWordChar cs with
  | none => none
  | some (n, r) =>
    match litM "--".data r with
    | some _ => some (n + 2)
    | none => none

/-! ### Line model -/

/-- Auxiliary for `splitLines`: accumulate the current line (reversed). -/
def splitLinesAux : List Char → List Char → List String
  | [], acc => [String.mk acc.reverse]
  | c :: cs, acc =>
    if c = '\n' then String.mk acc.reverse :: splitLinesAux cs []
    else splitLinesAux cs (c :: acc)

/-- `code.split('\n')` of the constructor: split on every newline,
keeping empty segments (`"".split('\n')` is `[""]`). -/
def splitLines (s : String) : List String :=
  splitLinesAux s.data []

/-- `line.trim()`: strip leading and trailing whitespace. -/
def trimChars (s : String) : String :=
  String.mk (((s.data.dropWhile isJsSpace).reverse.dropWhile isJsSpace).reverse)

/-! ### Data model -/

/-- The closed severity enumeration of the `Vulnerability` interface. -/
inductive Severity where
  | Critical | High | Medium | Low | Info
deriving DecidableEq

/-- The `Vulnerability` interface (the spec's `Finding`). -/
structure Vulnerability where
  id : String
  title : String
  severity : Severity
  line : Nat
  description : String
  code : String
  suggestions : List String
deriving DecidableEq

/-- The `AuditScores` interface; JavaScript numbers modelled as `ℚ`. -/
structure AuditScores where
  security : ℚ
  gasEfficiency : ℚ
  performance : ℚ
  codeQuality : ℚ
  documentation : ℚ
deriving DecidableEq

/-- The `AuditReport` interface. -/
structure AuditReport where
  overallScore : ℚ
  scores : AuditScores
  vulnerabilities : List Vulnerability
  suggestions : List String

/-! ### Bounded window scans

The analyzer's helper methods are `for` loops over a bounded index window;
they are modelled by fuel-indexed scans where the fuel is the number of loop
iterations (`min (start + width) lines.length - start`, which is `0` when
the window is empty, matching the JavaScript loop not executing). -/

/-- A `for (let i = start; i < stop; i++) if (p(i)) return true` loop with
`fuel = stop - start` iterations. -/
def anyScanGo (p : Nat → Bool) : Nat → Nat → Bool
  | _, 0 => false
  | i, fuel + 1 => p i || anyScanGo p (i + 1) fuel

/-- The three state-mutation patterns tested by
`hasStateModificationAfterCall` on one line. -/
def stateModPattern (l : String) : Bool :=
  testR wAssignAt l.data || testR wIncAt l.data || testR wDecAt l.data

/-- `hasStateModificationAfterCall`: scan `i` from `callLineIndex + 1`
while `i < min (callLineIndex + 5) lines.length`. -/
def hasStateModificationAfterCall (lines : List String) (callLineIndex : Nat) : Bool :=
  anyScanGo (fun i => stateModPattern (lines.getD i ""))
    (callLineIndex + 1) (min (callLineIndex + 5) lines.length - (callLineIndex + 1))

/-- The inner loop of `hasAccessControlInFunction`: guard pattern found →
`true`; a `}` on the line → break (`false`); else next iteration. -/
def accessScanGo (lines : List String) : Nat → Nat → Bool
  | _, 0 => false
  | i, fuel + 1 =>
    let l := lines.getD i ""
    if testR guardPatAt l.data then true
    else if containsStr "\x7d" l then false
    else accessScanGo lines (i + 1) fuel

/-- `hasAccessControlInFunction`: scan `i` from `functionLineIndex` while
`i < min (functionLineIndex + 10) lines.length`. -/
def hasAccessControlInFunction (lines : List String) (functionLineIndex : Nat) : Bool :=
  accessScanGo lines functionLineIndex
    (min (functionLineIndex + 10) lines.length - functionLineIndex)

/-- `hasNatSpecAbove`: scan the previous three lines,
`i` from `max 0 (idx - 3)` while `i < idx` (so `min idx 3` iterations). -/
def hasNatSpecAbove (lines : List String) (functionLineIndex : Nat) : Bool :=
  anyScanGo (fun i => testR natspecAt (lines.getD i "").data)
    (functionLineIndex - 3) (min functionLineIndex 3)

/-- The inner loop of `detectGasInefficiency`: return the first index in the
window whose line matches the storage-access pattern (the loop `break`s on
the first hit). -/
def gasScanGo (lines : List String) : Nat → Nat → Option Nat
  | _, 0 => none
  | i, fuel + 1 =>
    if testR storageAt (lines.getD i "").data then some i
    else gasScanGo lines (i + 1) fuel

/-- `detectGasInefficiency`'s window: `i` from `index` while
`i < min (index + 10) lines.length`, stopping at the first match. -/
def gasWindowFind (lines : List String) (index : Nat) : Option Nat :=
  gasScanGo lines index (min (index + 10) lines.length - index)

/-! ### Finding constructors (one per detector, fixed strings) -/

def reentrancyTitle : String := "Potential Reentrancy Vulnerability"

/-- The finding pushed by `detectReentrancy` for line index `idx`. -/
def mkReentrancy (lines : List String) (idx : Nat) (l : String) : Vulnerability :=
  { id := "reentrancy-" ++ toString idx
    title := reentrancyTitle
    severity := if hasStateModificationAfterCall lines idx then .Critical else .High
    line := idx + 1
    description := "External call detected. Ensure state updates happen before external calls to prevent reentrancy attacks."
    code := trimChars l
    suggestions :=
      ["Use the checks-effects-interactions pattern",
       "Apply ReentrancyGuard from OpenZeppelin",
       "Update state before external calls",
       "Consider using transfer() instead of call() for simple ether transfers"] }

def overflowTitle : String := "Potential Integer Overflow/Underflow"

/-- The finding pushed by `detectOverflowUnderflow` for line index `idx`. -/
def mkOverflow (idx : Nat) (l : String) : Vulnerability :=
  { id := "overflow-" ++ toString idx
    title := overflowTitle
    severity := .Medium
    line := idx + 1
    description := "Arithmetic operations without SafeMath or Solidity ^0.8.0 can cause overflow/underflow."
    code := trimChars l
    suggestions :=
      ["Use OpenZeppelin's SafeMath library",
       "Upgrade to Solidity ^0.8.0 for built-in overflow protection",
       "Add explicit overflow/underflow checks",
       "Use checked\x7b\x7d blocks for arithmetic operations"] }

def gasTitle : String := "Gas Inefficient Storage Access in Loop"

/-- The finding pushed by `detectGasInefficiency` for a loop opening at line
index `idx` whose first storage hit is at line index `i`. -/
def mkGas (lines : List String) (idx : Nat) (i : Nat) : Vulnerability :=
  { id := "gas-loop-" ++ toString idx
    title := gasTitle
    severity := .Low
    line := i + 1
    description := "Storage operations inside loops can be expensive. Consider moving data to memory."
    code := trimChars (lines.getD i "")
    suggestions :=
      ["Move storage array to memory before the loop",
       "Cache storage variables in memory",
       "Use memory arrays for intermediate calculations",
       "Consider batch operations to reduce gas costs"] }

def accessTitle : String := "Missing Access Control"

/-- The finding pushed by `detectAccessControl` for line index `idx`. -/
def mkAccess (idx : Nat) (l : String) : Vulnerability :=
  { id := "access-" ++ toString idx
    title := accessTitle
    severity := .High
    line := idx + 1
    description := "Public/external function without access control modifiers."
    code := trimChars l
    suggestions :=
      ["Add onlyOwner modifier for administrative functions",
       "Use OpenZeppelin's AccessControl for role-based permissions",
       "Add require() statements to check msg.sender",
       "Consider making function internal if not needed externally"] }

def natspecTitle : String := "Missing NatSpec Documentation"

/-- The finding pushed by `detectMissingNatSpec` for line index `idx`. -/
def mkNatspec (idx : Nat) (l : String) : Vulnerability :=
  { id := "natspec-" ++ toString idx
    title := natspecTitle
    severity := .Info
    line := idx + 1
    description := "Function lacks NatSpec documentation for better code maintainability."
    code := trimChars l
    suggestions :=
      ["Add @notice for function description",
       "Add @param for parameter descriptions",
       "Add @return for return value descriptions",
       "Use /// for single-line NatSpec comments"] }

/-! ### The detectors

The reentrancy, overflow and access-control/NatSpec detectors create their
line regexes with the `g` flag once and reuse the same objects for every
line, so each regex's `lastIndex` survives from one line to the next; the
detector loops therefore thread that state explicitly. -/

/-- The `lastIndex` state of the four `g`-flagged reentrancy patterns, in
their declaration order. -/
structure ReentrancySt where
  s1 : Nat
  s2 : Nat
  s3 : Nat
  s4 : Nat

/-- Run the four reentrancy patterns (in order) on one line. -/
def reentrancyLineStep (l : List Char) (st : ReentrancySt) : List Bool × ReentrancySt :=
  let r1 := testG callValueBraceAt l st.s1
  let r2 := testG callDotValueAt l st.s2
  let r3 := testG sendAt l st.s3
  let r4 := testG transferAt l st.s4
  ([r1.1, r2.1, r3.1, r4.1], ⟨r1.2, r2.2, r3.2, r4.2⟩)

/-- The `lines.forEach` of `detectReentrancy`, pushing one finding per
pattern that tests `true` on the line. -/
def detectReentrancyGo (lines : List String) : List String → Nat → ReentrancySt → List Vulnerability
  | [], _, _ => []
  | l :: rest, idx, st =>
    let r := reentrancyLineStep l.data st
    (r.1.filterMap fun b => if b then some (mkReentrancy lines idx l) else none)
      ++ detectReentrancyGo lines rest (idx + 1) r.2

/-- `detectReentrancy`. -/
def detectReentrancy (lines : List String) : List Vulnerability :=
  detectReentrancyGo lines lines 0 ⟨0, 0, 0, 0⟩

/-- The `lines.forEach` of `detectOverflowUnderflow` (the `mathPattern` is
`g`-flagged; the two `includes` tests are stateless). -/
def detectOverflowGo : List String → Nat → Nat → List Vulnerability
  | [], _, _ => []
  | l :: rest, idx, st =>
    let r := testG mathAt l.data st
    (if r.1 && !containsStr "//" l && !containsStr "*" l then [mkOverflow idx l] else [])
      ++ detectOverflowGo rest (idx + 1) r.2

/-- `detectOverflowUnderflow`: the whole loop is gated on the source
lacking both SafeMath and a `>= 0.8` pragma. -/
def detectOverflowUnderflow (code : String) (lines : List String) : List Vulnerability :=
  let hasSafeMath := testR safeMathAt code.data
  let hasModernSolidity := testR pragmaAt code.data
  if !hasSafeMath && !hasModernSolidity then detectOverflowGo lines 0 0 else []

/-- The `lines.forEach` of `detectGasInefficiency` (stateless patterns). -/
def detectGasGo (lines : List String) : List String → Nat → List Vulnerability
  | [], _ => []
  | l :: rest, idx =>
    (if testR forAt l.data then
       match gasWindowFind lines idx with
       | some i => [mkGas lines idx i]
       | none => []
     else [])
      ++ detectGasGo lines rest (idx + 1)

/-- `detectGasInefficiency`. -/
def detectGasInefficiency (lines : List String) : List Vulnerability :=
  detectGasGo lines lines 0

/-- The `lines.forEach` of `detectAccessControl` (`functionPattern` is
`g`-flagged, `modifierPattern` is stateless). -/
def detectAccessGo (lines : List String) : List String → Nat → Nat → List Vulnerability
  | [], _, _ => []
  | l :: rest, idx, st =>
    let r := testG funcPubExtAt l.data st
    (if r.1 && !testR modifierPatAt l.data then
       if hasAccessControlInFunction lines idx then [] else [mkAccess idx l]
     else [])
      ++ detectAccessGo lines rest (idx + 1) r.2

/-- `detectAccessControl`. -/
def detectAccessControl (lines : List String) : List Vulnerability :=
  detectAccessGo lines lines 0 0

/-- The `lines.forEach` of `detectMissingNatSpec` (its own `g`-flagged
`functionPattern`; the `totalFunctions`/`documentedFunctions` counters of
the source are dead locals and are omitted). -/
def detectNatspecGo (lines : List String) : List String → Nat → Nat → List Vulnerability
  | [], _, _ => []
  | l :: rest, idx, st =>
    let r := testG funcNameAt l.data st
    (if r.1 then
       if hasNatSpecAbove lines idx then [] else [mkNatspec idx l]
     else [])
      ++ detectNatspecGo lines rest (idx + 1) r.2

/-- `detectMissingNatSpec`. -/
def detectMissingNatSpec (lines : List String) : List Vulnerability :=
  detectNatspecGo lines lines 0 0

/-! ### Scoring -/

/-- The fixed `severityWeights` table. -/
def severityWeight : Severity → ℚ
  | .Critical => 10
  | .High => 7
  | .Medium => 5
  | .Low => 3
  | .Info => 1

/-- Title keyword routing to the `security` bucket. -/
def titleSecurity (t : String) : Bool :=
  containsStr "Reentrancy" t || containsStr "Access Control" t || containsStr "Overflow" t

/-- Title keyword routing to the `gasEfficiency` bucket. -/
def titleGas (t : String) : Bool := containsStr "Gas" t

/-- Title keyword routing to the `performance` bucket. -/
def titlePerformance (t : String) : Bool :=
  containsStr "Loop" t || containsStr "Storage" t

/-- Title keyword routing to the `documentation` bucket. -/
def titleDoc (t : String) : Bool := containsStr "NatSpec" t

/-- The accumulation loop of `calculateScores`: the five penalty
accumulators after processing the list (ℚ addition is associative and
commutative, so the fold direction is immaterial to the value). -/
def penalties : List Vulnerability → ℚ × ℚ × ℚ × ℚ × ℚ
  | [] => (0, 0, 0, 0, 0)
  | v :: rest =>
    let r := penalties rest
    let w := severityWeight v.severity
    ((if titleSecurity v.title then w else 0) + r.1,
     (if titleGas v.title then w else 0) + r.2.1,
     (if titlePerformance v.title then w else 0) + r.2.2.1,
     w * (3 / 10) + r.2.2.2.1,
     (if titleDoc v.title then w else 0) + r.2.2.2.2)

/-- `Math.max(1, 10 - Math.min(maxPenalty, p) / 4)` with `maxPenalty = 40`. -/
def bucketScore (p : ℚ) : ℚ := max 1 (10 - min 40 p / 4)

/-- `calculateScores`. -/
def calculateScores (vulns : List Vulnerability) : AuditScores :=
  let p := penalties vulns
  { security := bucketScore p.1
    gasEfficiency := bucketScore p.2.1
    performance := bucketScore p.2.2.1
    codeQuality := bucketScore p.2.2.2.1
    documentation := bucketScore p.2.2.2.2 }

/-- `calculateOverallScore`: the fixed weighted sum, then
`Math.round(x * 10) / 10` (JavaScript `Math.round` rounds half toward
positive infinity, which is Mathlib's `round`). -/
def calculateOverallScore (scores : AuditScores) : ℚ :=
  let weighted :=
    scores.security * (3 / 10) + scores.gasEfficiency * (2 / 10) +
      scores.performance * (2 / 10) + scores.codeQuality * (2 / 10) +
      scores.documentation * (1 / 10)
  ((round (weighted * 10) : ℤ) : ℚ) / 10

/-- `generateSuggestions`: a constant list (the `Set` preserves insertion
order and the seven strings are distinct). -/
def generateSuggestions (_vulns : List Vulnerability) : List String :=
  ["Follow the checks-effects-interactions pattern for all external calls",
   "Use OpenZeppelin libraries for common security patterns",
   "Add comprehensive NatSpec documentation to all public functions",
   "Implement proper access control for administrative functions",
   "Consider gas optimization for frequently called functions",
   "Add event emissions for important state changes",
   "Use latest Solidity version with built-in overflow protection"]

/-- `analyze`: run the five detectors in declaration order, then score. -/
def analyze (code : String) : AuditReport :=
  let lines := splitLines code
  let vulnerabilities :=
    detectReentrancy lines ++ detectOverflowUnderflow code lines ++
      detectGasInefficiency lines ++ detectAccessControl lines ++
      detectMissingNatSpec lines
  let scores := calculateScores vulnerabilities
  { overallScore := calculateOverallScore scores
    scores := scores
    vulnerabilities := vulnerabilities
    suggestions := generateSuggestions vulnerabilities }

/-! ### Specification-side definitions

The following definitions restate parts of the specification in their own
words (per-bucket sums, an explicit window for the gas detector, the
weighted overall formula); the theorems below compare them with the
definitions taken from the source. -/

/-- The detector that produced a finding, recovered from its (fixed) title;
numbered in detector execution order. -/
def detectorRank (v : Vulnerability) : Nat :=
  if v.title = reentrancyTitle then 0
  else if v.title = overflowTitle then 1
  else if v.title = gasTitle then 2
  else if v.title = accessTitle then 3
  else 4

/-- Spec phrasing of the gas window scan: the first index of the window
whose line matches the storage pattern, the window written out as an
explicit index range. -/
def gasSpecFind (lines : List String) (idx : Nat) : Option Nat :=
  (List.range' idx (min (idx + 10) lines.length - idx)).find? fun i =>
    testR storageAt ((lines.getD i "").data)

/-- Spec phrasing of the whole gas detector: for every line index, if the
line opens a `for (` loop, emit one Low finding at the first storage hit of
the 10-line window starting at the loop line, else nothing. -/
def detectGasSpec (lines : List String) : List Vulnerability :=
  ((List.range lines.length).map fun idx =>
    if testR forAt ((lines.getD idx "").data) then
      match gasSpecFind lines idx with
      | some i => [mkGas lines idx i]
      | none => []
    else []).flatten

/-- Spec phrasing of a keyword bucket's accumulated penalty: the sum of the
severity weights of the findings whose title matches the bucket. -/
def keywordPenalty (p : String → Bool) (vulns : List Vulnerability) : ℚ :=
  (vulns.map fun v => if p v.title then severityWeight v.severity else 0).sum

/-- Spec phrasing of the code-quality penalty: every finding contributes
30% of its weight. -/
def qualityPenalty (vulns : List Vulnerability) : ℚ :=
  (vulns.map fun v => severityWeight v.severity * (3 / 10)).sum

/-- Spec phrasing of the five bucket scores. -/
def scoresSpec (vulns : List Vulnerability) : AuditScores :=
  { security := bucketScore (keywordPenalty titleSecurity vulns)
    gasEfficiency := bucketScore (keywordPenalty titleGas vulns)
    performance := bucketScore (keywordPenalty titlePerformance vulns)
    codeQuality := bucketScore (qualityPenalty vulns)
    documentation := bucketScore (keywordPenalty titleDoc vulns) }

/-- Spec phrasing of the weighted sum
`0.30*security + 0.20*gasEfficiency + 0.20*performance + 0.20*codeQuality
+ 0.10*documentation`. -/
def weightedSpec (s : AuditScores) : ℚ :=
  (3 / 10) * s.security + (2 / 10) * s.gasEfficiency + (2 / 10) * s.performance +
    (2 / 10) * s.codeQuality + (1 / 10) * s.documentation

/-- Rounding to one decimal place (JavaScript `Math.round(x*10)/10`). -/
def roundTo1 (x : ℚ) : ℚ := ((round (x * 10) : ℤ) : ℚ) / 10

/-! ### Concrete inputs used by the counterexample and witness theorems -/

/-- An external call on line 1 and a state mutation on line 6 — the fifth
line after the call, the last line of the spec's claimed five-line
window. -/
def windowSrc : String := "a.send(b);\n\n\n\n\nx = 1;"

/-- The input of the spec's reentrancy-window test: the call on line 5, the
mutation `balance -= amt;` on line 7. -/
def reentrancySrc : String := "\n\n\n\nx.call\x7bvalue: amt\x7d(\"\");\n\nbalance -= amt;"

/-- Two consecutive lines that each contain `.send(`. -/
def doubleSendLines : List String := ["a.send(b);", "a.send(b);"]

/-- One line matching both the `.send(` and the `.transfer(` patterns. -/
def twoPatternSrc : String := "a.send(b); c.transfer(d);"

/-- A modern pragma together with unguarded arithmetic. -/
def pragmaSrc : String := "pragma solidity ^0.8.4;\na + b"

/-- A `for` loop on line 1 whose only storage-array assignment is on line
11 — the tenth line after the loop header. -/
def gasLines : List String :=
  ["for (uint i = 0; i < n; i++) \x7b", "", "", "", "", "", "", "", "", "", "x[i] = 1;"]

/-- A single-line source with one external call, used as witness input. -/
def transferSrc : String := "a.transfer(b);"

/-- The finding that `analyze transferSrc` reports. -/
def transferFinding : Vulnerability :=
  mkReentrancy (splitLines transferSrc) 0 "a.transfer(b);"

/-! ## Helper lemmas -/

/-- `Nat.digitChar` is injective below 10. -/
lemma digitChar_injOn : ∀ a, a < 10 → ∀ b, b < 10 → Nat.digitChar a = Nat.digitChar b → a = b := by
  decide

lemma map_digitChar_inj :
    ∀ (l1 l2 : List Nat), (∀ x ∈ l1, x < 10) → (∀ x ∈ l2, x < 10) →
      l1.map Nat.digitChar = l2.map Nat.digitChar → l1 = l2 := by
  intro l1
  induction l1 with
  | nil => intro l2 _ _ h; cases l2 <;> simp_all
  | cons a t ih =>
    intro l2 h1 h2 h
    cases l2 with
    | nil => simp at h
    | cons b t2 =>
      simp only [List.map_cons, List.cons.injEq] at h
      have hab : a = b :=
        digitChar_injOn a (h1 a (by simp)) b (h2 b (by simp)) h.1
      have ht : t = t2 :=
        ih t2 (fun x hx => h1 x (by simp [hx])) (fun x hx => h2 x (by simp [hx])) h.2
      rw [hab, ht]

lemma toDigitsCore_eq_digits :
    ∀ (fuel n : Nat) (ds : List Char), 0 < n → n ≤ fuel →
      Nat.toDigitsCore 10 fuel n ds = ((Nat.digits 10 n).map Nat.digitChar).reverse ++ ds := by
  intro fuel
  induction fuel with
  | zero => intro n ds h1 h2; omega
  | succ f ih =>
    intro n ds h1 h2
    have hdig : Nat.digits 10 n = n % 10 :: Nat.digits 10 (n / 10) :=
      Nat.digits_def' (by norm_num) h1
    by_cases hdiv : n / 10 = 0
    · have hzero : Nat.digits 10 (n / 10) = [] := by rw [hdiv]; simp
      simp [Nat.toDigitsCore, hdiv, hdig, hzero]
    · have hlt : n / 10 < n := Nat.div_lt_self h1 (by norm_num)
      have hfuel : n / 10 ≤ f := by omega
      have := ih (n / 10) (Nat.digitChar (n % 10) :: ds) (Nat.pos_of_ne_zero hdiv) hfuel
      simp only [Nat.toDigitsCore, hdiv, if_false]
      rw [this, hdig]
      simp

/-- The characters of `Nat.repr`. -/
lemma natRepr_data (n : Nat) :
    (Nat.repr n).data =
      if n = 0 then ['0'] else ((Nat.digits 10 n).map Nat.digitChar).reverse := by
  by_cases h : n = 0
  · subst h; rfl
  · have : (Nat.repr n).data = Nat.toDigitsCore 10 (n + 1) n [] := rfl
    rw [this, toDigitsCore_eq_digits (n + 1) n [] (Nat.pos_of_ne_zero h) (by omega)]
    simp [h]

/-- Decimal printing of naturals is injective (at the character level). -/
lemma natRepr_data_inj {m n : Nat} (h : (Nat.repr m).data = (Nat.repr n).data) : m = n := by
  rw [natRepr_data, natRepr_data] at h
  have digitsLt : ∀ k, ∀ x ∈ Nat.digits 10 k, x < 10 := fun k x hx =>
    Nat.digits_lt_base (by norm_num) hx
  by_cases hm : m = 0 <;> by_cases hn : n = 0
  · omega
  · exfalso
    rw [if_pos hm, if_neg hn] at h
    have h' : (Nat.digits 10 n).map Nat.digitChar = ['0'] := by
      have := congrArg List.reverse h
      simpa using this.symm
    have : Nat.digits 10 n = [0] :=
      map_digitChar_inj _ [0] (digitsLt n) (by simp) (by simpa using h')
    have := Nat.ofDigits_digits 10 n
    rw [this.symm, ‹Nat.digits 10 n = [0]›] at hn
    simp [Nat.ofDigits] at hn
  · exfalso
    rw [if_neg hm, if_pos hn] at h
    have h' : (Nat.digits 10 m).map Nat.digitChar = ['0'] := by
      have := congrArg List.reverse h
      simpa using this
    have : Nat.digits 10 m = [0] :=
      map_digitChar_inj _ [0] (digitsLt m) (by simp) (by simpa using h')
    have := Nat.ofDigits_digits 10 m
    rw [this.symm, ‹Nat.digits 10 m = [0]›] at hm
    simp [Nat.ofDigits] at hm
  · rw [if_neg hm, if_neg hn] at h
    have h' : (Nat.digits 10 m).map Nat.digitChar = (Nat.digits 10 n).map Nat.digitChar := by
      have := congrArg List.reverse h
      simpa using this
    have hd : Nat.digits 10 m = Nat.digits 10 n :=
      map_digitChar_inj _ _ (digitsLt m) (digitsLt n) h'
    calc m = Nat.ofDigits 10 (Nat.digits 10 m) := (Nat.ofDigits_digits 10 m).symm
      _ = Nat.ofDigits 10 (Nat.digits 10 n) := by rw [hd]
      _ = n := Nat.ofDigits_digits 10 n

/-- Concatenating a fixed prefix with the decimal printing of a natural is
injective in the natural (this is the shape of every finding id). -/
lemma id_append_inj {p : String} {m n : Nat}
    (h : p ++ toString m = p ++ toString n) : m = n := by
  have hdata : p.data ++ (Nat.repr m).data = p.data ++ (Nat.repr n).data :=
    congrArg String.data h
  exact natRepr_data_inj (List.append_cancel_left hdata)

/-- Two strings with distinct first characters are distinct. -/
lemma ne_of_head_ne {s t : String} (h : s.data.head? ≠ t.data.head?) : s ≠ t :=
  fun he => h (by rw [he])

/-- The first character of `p ++ s` is the first character of a nonempty
`p`. -/
lemma head_append_of_ne_nil {p s : String} {c : Char} (h : p.data.head? = some c) :
    (p ++ s).data.head? = some c := by
  have hd : (p ++ s).data = p.data ++ s.data := rfl
  rw [hd]
  cases hp : p.data with
  | nil => rw [hp] at h; simp at h
  | cons a t => rw [hp] at h; simp at h; simp [h]

/-- Every element of a list equals `a` and `R a a` holds: the list is
pairwise `R`. -/
lemma pairwise_of_allEq {α : Type} {R : α → α → Prop} {a : α} :
    ∀ (L : List α), (∀ x ∈ L, x = a) → R a a → List.Pairwise R L := by
  intro L
  induction L with
  | nil => intro _ _; exact List.Pairwise.nil
  | cons x t ih =>
    intro hall hR
    have hx : x = a := hall x (by simp)
    refine List.Pairwise.cons ?_ (ih (fun y hy => hall y (by simp [hy])) hR)
    intro y hy
    rw [hx, hall y (by simp [hy])]
    exact hR

/-- Unfolding facts for `List.drop` hitting a cons cell. -/
lemma drop_facts {xs : List String} {n : Nat} {l : String} {r : List String}
    (h : xs.drop n = l :: r) :
    n < xs.length ∧ xs.getD n "" = l ∧ xs.drop (n + 1) = r := by
  induction n generalizing xs with
  | zero =>
    cases xs with
    | nil => simp at h
    | cons a t =>
      simp only [List.drop_zero] at h
      cases h
      exact ⟨by simp, rfl, by simp⟩
  | succ n ih =>
    cases xs with
    | nil => simp at h
    | cons a t =>
      simp only [List.drop_succ_cons] at h
      obtain ⟨h1, h2, h3⟩ := ih h
      exact ⟨by simpa using Nat.succ_lt_succ h1, by simpa using h2, by simpa using h3⟩

/-- Membership in a conditional singleton. -/
lemma mem_ite_singleton {α : Type} {c : Prop} [Decidable c] {a v : α}
    (h : v ∈ if c then [a] else ([] : List α)) : v = a ∧ c := by
  by_cases hc : c
  · rw [if_pos hc] at h; simp at h; exact ⟨h, hc⟩
  · rw [if_neg hc] at h; simp at h

/-! ## Membership characterizations of the detector outputs -/

lemma mem_reentrancyBlock {lines : List String} {idx : Nat} {l : String} {bs : List Bool}
    {v : Vulnerability}
    (h : v ∈ bs.filterMap fun b => if b then some (mkReentrancy lines idx l) else none) :
    v = mkReentrancy lines idx l := by
  rcases List.mem_filterMap.mp h with ⟨b, _, hb⟩
  by_cases hbb : b = true
  · rw [hbb] at hb; simp at hb; exact hb.symm
  · simp [hbb] at hb

lemma mem_detectReentrancyGo (lines : List String) :
    ∀ (rest : List String) (idx : Nat) (st : ReentrancySt) (v : Vulnerability),
      lines.drop idx = rest → v ∈ detectReentrancyGo lines rest idx st →
      ∃ k, idx ≤ k ∧ k < lines.length ∧ v = mkReentrancy lines k (lines.getD k "") := by
  intro rest
  induction rest with
  | nil => intro idx st v _ hv; simp [detectReentrancyGo] at hv
  | cons l t ih =>
    intro idx st v hdrop hv
    obtain ⟨hlen, hget, hdrop'⟩ := drop_facts hdrop
    simp only [detectReentrancyGo, List.mem_append] at hv
    cases hv with
    | inl h =>
      exact ⟨idx, le_refl _, hlen, by rw [mem_reentrancyBlock h, hget]⟩
    | inr h =>
      obtain ⟨k, hk1, hk2, hk3⟩ := ih (idx + 1) _ v hdrop' h
      exact ⟨k, by omega, hk2, hk3⟩

lemma mem_detectReentrancy {lines : List String} {v : Vulnerability}
    (h : v ∈ detectReentrancy lines) :
    ∃ k, k < lines.length ∧ v = mkReentrancy lines k (lines.getD k "") := by
  obtain ⟨k, _, hk2, hk3⟩ := mem_detectReentrancyGo lines lines 0 ⟨0, 0, 0, 0⟩ v (by simp) h
  exact ⟨k, hk2, hk3⟩

lemma mem_detectOverflowGo (lines : List String) :
    ∀ (rest : List String) (idx : Nat) (st : Nat) (v : Vulnerability),
      lines.drop idx = rest → v ∈ detectOverflowGo rest idx st →
      ∃ k, idx ≤ k ∧ k < lines.length ∧ v = mkOverflow k (lines.getD k "") := by
  intro rest
  induction rest with
  | nil => intro idx st v _ hv; simp [detectOverflowGo] at hv
  | cons l t ih =>
    intro idx st v hdrop hv
    obtain ⟨hlen, hget, hdrop'⟩ := drop_facts hdrop
    simp only [detectOverflowGo, List.mem_append] at hv
    cases hv with
    | inl h =>
      exact ⟨idx, le_refl _, hlen, by rw [(mem_ite_singleton h).1, hget]⟩
    | inr h =>
      obtain ⟨k, hk1, hk2, hk3⟩ := ih (idx + 1) _ v hdrop' h
      exact ⟨k, by omega, hk2, hk3⟩

lemma mem_detectOverflowUnderflow {code : String} {lines : List String} {v : Vulnerability}
    (h : v ∈ detectOverflowUnderflow code lines) :
    ∃ k, k < lines.length ∧ v = mkOverflow k (lines.getD k "") := by
  by_cases hgate :
      (!testR safeMathAt code.data && !testR pragmaAt code.data) = true
  · rw [detectOverflowUnderflow] at h
    simp only [hgate, if_true] at h
    obtain ⟨k, _, hk2, hk3⟩ := mem_detectOverflowGo lines lines 0 0 v (by simp) h
    exact ⟨k, hk2, hk3⟩
  · rw [detectOverflowUnderflow] at h
    simp only [hgate] at h
    simp at h

lemma gasScanGo_some (lines : List String) :
    ∀ (fuel i m : Nat), gasScanGo lines i fuel = some m →
      i ≤ m ∧ m < i + fuel ∧ testR storageAt ((lines.getD m "").data) = true ∧
        ∀ j, i ≤ j → j < m → testR storageAt ((lines.getD j "").data) = false := by
  intro fuel
  induction fuel with
  | zero => intro i m h; simp [gasScanGo] at h
  | succ f ih =>
    intro i m h
    by_cases hp : testR storageAt ((lines.getD i "").data) = true
    · simp only [gasScanGo, hp, if_true, Option.some.injEq] at h
      subst h
      exact ⟨le_refl _, by omega, hp, fun j hj1 hj2 => by omega⟩
    · simp only [gasScanGo, hp, if_false, Bool.false_eq_true] at h
      obtain ⟨h1, h2, h3, h4⟩ := ih (i + 1) m h
      refine ⟨by omega, by omega, h3, ?_⟩
      intro j hj1 hj2
      by_cases hji : j = i
      · rw [hji]; exact Bool.eq_false_iff.mpr hp
      · exact h4 j (by omega) hj2

lemma gasWindowFind_some {lines : List String} {k m : Nat}
    (h : gasWindowFind lines k = some m) :
    k ≤ m ∧ m < lines.length ∧ m < k + 10 ∧
      testR storageAt ((lines.getD m "").data) = true ∧
      ∀ j, k ≤ j → j < m → testR storageAt ((lines.getD j "").data) = false := by
  obtain ⟨h1, h2, h3, h4⟩ := gasScanGo_some lines _ k m h
  have hb : m < min (k + 10) lines.length := by omega
  exact ⟨h1, by omega, by omega, h3, h4⟩

/-- The first storage hit of a later loop window is never on an earlier
line than the first hit of an earlier loop window. -/
lemma gasWindowFind_mono {lines : List String} {k1 k2 m1 m2 : Nat}
    (h1 : gasWindowFind lines k1 = some m1) (h2 : gasWindowFind lines k2 = some m2)
    (hk : k1 ≤ k2) : m1 ≤ m2 := by
  by_contra hcon
  push_neg at hcon
  obtain ⟨h11, _, _, _, h15⟩ := gasWindowFind_some h1
  obtain ⟨h21, _, _, h24, _⟩ := gasWindowFind_some h2
  have : testR storageAt ((lines.getD m2 "").data) = false := h15 m2 (by omega) hcon
  rw [h24] at this
  exact Bool.true_eq_false.mp this

lemma mem_detectGasGo (lines : List String) :
    ∀ (rest : List String) (idx : Nat) (v : Vulnerability),
      lines.drop idx = rest → v ∈ detectGasGo lines rest idx →
      ∃ k i, idx ≤ k ∧ k < lines.length ∧ gasWindowFind lines k = some i ∧
        v = mkGas lines k i := by
  intro rest
  induction rest with
  | nil => intro idx v _ hv; simp [detectGasGo] at hv
  | cons l t ih =>
    intro idx v hdrop hv
    obtain ⟨hlen, hget, hdrop'⟩ := drop_facts hdrop
    simp only [detectGasGo, List.mem_append] at hv
    cases hv with
    | inl h =>
      by_cases hfor : testR forAt l.data = true
      · rw [if_pos hfor] at h
        cases hw : gasWindowFind lines idx with
        | none => rw [hw] at h; simp at h
        | some i =>
          rw [hw] at h
          simp only [List.mem_singleton] at h
          exact ⟨idx, i, le_refl _, hlen, hw, h⟩
      · rw [if_neg hfor] at h; simp at h
    | inr h =>
      obtain ⟨k, i, hk1, hk2, hk3, hk4⟩ := ih (idx + 1) v hdrop' h
      exact ⟨k, i, by omega, hk2, hk3, hk4⟩

lemma mem_detectGasInefficiency {lines : List String} {v : Vulnerability}
    (h : v ∈ detectGasInefficiency lines) :
    ∃ k i, k < lines.length ∧ gasWindowFind lines k = some i ∧ v = mkGas lines k i := by
  obtain ⟨k, i, _, hk2, hk3, hk4⟩ := mem_detectGasGo lines lines 0 v (by simp) h
  exact ⟨k, i, hk2, hk3, hk4⟩

lemma mem_detectAccessGo (lines : List String) :
    ∀ (rest : List String) (idx : Nat) (st : Nat) (v : Vulnerability),
      lines.drop idx = rest → v ∈ detectAccessGo lines rest idx st →
      ∃ k, idx ≤ k ∧ k < lines.length ∧ v = mkAccess k (lines.getD k "") := by
  intro rest
  induction rest with
  | nil => intro idx st v _ hv; simp [detectAccessGo] at hv
  | cons l t ih =>
    intro idx st v hdrop hv
    obtain ⟨hlen, hget, hdrop'⟩ := drop_facts hdrop
    simp only [detectAccessGo, List.mem_append] at hv
    cases hv with
    | inl h =>
      by_cases hc : (testG funcPubExtAt l.data st).1 && !testR modifierPatAt l.data
      · rw [if_pos hc] at h
        by_cases hac : hasAccessControlInFunction lines idx = true
        · simp only [hac, if_true] at h; simp at h
        · simp only [hac, if_false, Bool.false_eq_true, List.mem_singleton] at h
          exact ⟨idx, le_refl _, hlen, by rw [h, hget]⟩
      · rw [if_neg hc] at h; simp at h
    | inr h =>
      obtain ⟨k, hk1, hk2, hk3⟩ := ih (idx + 1) _ v hdrop' h
      exact ⟨k, by omega, hk2, hk3⟩

lemma mem_detectAccessControl {lines : List String} {v : Vulnerability}
    (h : v ∈ detectAccessControl lines) :
    ∃ k, k < lines.length ∧ v = mkAccess k (lines.getD k "") := by
  obtain ⟨k, _, hk2, hk3⟩ := mem_detectAccessGo lines lines 0 0 v (by simp) h
  exact ⟨k, hk2, hk3⟩

lemma mem_detectNatspecGo (lines : List String) :
    ∀ (rest : List String) (idx : Nat) (st : Nat) (v : Vulnerability),
      lines.drop idx = rest → v ∈ detectNatspecGo lines rest idx st →
      ∃ k, idx ≤ k ∧ k < lines.length ∧ v = mkNatspec k (lines.getD k "") := by
  intro rest
  induction rest with
  | nil => intro idx st v _ hv; simp [detectNatspecGo] at hv
  | cons l t ih =>
    intro idx st v hdrop hv
    obtain ⟨hlen, hget, hdrop'⟩ := drop_facts hdrop
    simp only [detectNatspecGo, List.mem_append] at hv
    cases hv with
    | inl h =>
      by_cases hc : (testG funcNameAt l.data st).1 = true
      · simp only [hc, if_true] at h
        by_cases hns : hasNatSpecAbove lines idx = true
        · simp only [hns, if_true] at h; simp at h
        · simp only [hns, if_false, Bool.false_eq_true, List.mem_singleton] at h
          exact ⟨idx, le_refl _, hlen, by rw [h, hget]⟩
      · simp only [hc] at h; simp at h
    | inr h =>
      obtain ⟨k, hk1, hk2, hk3⟩ := ih (idx + 1) _ v hdrop' h
      exact ⟨k, by omega, hk2, hk3⟩

lemma mem_detectMissingNatSpec {lines : List String} {v : Vulnerability}
    (h : v ∈ detectMissingNatSpec lines) :
    ∃ k, k < lines.length ∧ v = mkNatspec k (lines.getD k "") := by
  obtain ⟨k, _, hk2, hk3⟩ := mem_detectNatspecGo lines lines 0 0 v (by simp) h
  exact ⟨k, hk2, hk3⟩

/-! ## Pairwise structure of the detector outputs

Each detector's own block is ordered by line number, and two findings of
one block can share an id only if they come from the same reentrancy line
(where one finding is pushed per matching pattern, all with the same id). -/

lemma pairwise_ite_singleton {α : Type} {R : α → α → Prop} {c : Prop} [Decidable c] {a : α} :
    List.Pairwise R (if c then [a] else []) := by
  by_cases hc : c <;> simp [hc]

lemma pairwise_detectReentrancyGo (lines : List String) :
    ∀ (rest : List String) (idx : Nat) (st : ReentrancySt),
      lines.drop idx = rest →
      List.Pairwise (fun u v : Vulnerability => u.line ≤ v.line ∧ (u.id = v.id → u.line = v.line))
        (detectReentrancyGo lines rest idx st) := by
  intro rest
  induction rest with
  | nil => intro idx st _; simp [detectReentrancyGo]
  | cons l t ih =>
    intro idx st hdrop
    obtain ⟨hlen, hget, hdrop'⟩ := drop_facts hdrop
    simp only [detectReentrancyGo]
    apply List.pairwise_append.mpr
    refine ⟨?_, ih (idx + 1) _ hdrop', ?_⟩
    · exact pairwise_of_allEq _ (fun x hx => mem_reentrancyBlock hx) ⟨le_refl _, fun _ => rfl⟩
    · intro u hu v hv
      have hu' := mem_reentrancyBlock hu
      obtain ⟨k, hk1, hk2, hk3⟩ := mem_detectReentrancyGo lines t (idx + 1) _ v hdrop' hv
      constructor
      · rw [hu', hk3]
        simp only [mkReentrancy]
        omega
      · intro hid
        rw [hu', hk3] at hid
        simp only [mkReentrancy] at hid
        exact absurd (id_append_inj hid) (by omega)

lemma pairwise_detectReentrancy (lines : List String) :
    List.Pairwise (fun u v : Vulnerability => u.line ≤ v.line ∧ (u.id = v.id → u.line = v.line))
      (detectReentrancy lines) :=
  pairwise_detectReentrancyGo lines lines 0 ⟨0, 0, 0, 0⟩ (by simp)

lemma pairwise_detectOverflowGo (lines : List String) :
    ∀ (rest : List String) (idx st : Nat),
      lines.drop idx = rest →
      List.Pairwise (fun u v : Vulnerability => u.line ≤ v.line ∧ u.id ≠ v.id)
        (detectOverflowGo rest idx st) := by
  intro rest
  induction rest with
  | nil => intro idx st _; simp [detectOverflowGo]
  | cons l t ih =>
    intro idx st hdrop
    obtain ⟨hlen, hget, hdrop'⟩ := drop_facts hdrop
    simp only [detectOverflowGo]
    apply List.pairwise_append.mpr
    refine ⟨pairwise_ite_singleton, ih (idx + 1) _ hdrop', ?_⟩
    intro u hu v hv
    have hu' := (mem_ite_singleton hu).1
    obtain ⟨k, hk1, hk2, hk3⟩ := mem_detectOverflowGo lines t (idx + 1) _ v hdrop' hv
    constructor
    · rw [hu', hk3]
      simp only [mkOverflow]
      omega
    · intro hid
      rw [hu', hk3] at hid
      simp only [mkOverflow] at hid
      exact absurd (id_append_inj hid) (by omega)

lemma pairwise_detectOverflowUnderflow (code : String) (lines : List String) :
    List.Pairwise (fun u v : Vulnerability => u.line ≤ v.line ∧ u.id ≠ v.id)
      (detectOverflowUnderflow code lines) := by
  rw [detectOverflowUnderflow]
  by_cases hgate : (!testR safeMathAt code.data && !testR pragmaAt code.data) = true
  · simp only [hgate, if_true]
    exact pairwise_detectOverflowGo lines lines 0 0 (by simp)
  · simp only [hgate]
    simp

lemma pairwise_detectGasGo (lines : List String) :
    ∀ (rest : List String) (idx : Nat),
      lines.drop idx = rest →
      List.Pairwise (fun u v : Vulnerability => u.line ≤ v.line ∧ u.id ≠ v.id)
        (detectGasGo lines rest idx) := by
  intro rest
  induction rest with
  | nil => intro idx _; simp [detectGasGo]
  | cons l t ih =>
    intro idx hdrop
    obtain ⟨hlen, hget, hdrop'⟩ := drop_facts hdrop
    simp only [detectGasGo]
    apply List.pairwise_append.mpr
    refine ⟨?_, ih (idx + 1) hdrop', ?_⟩
    · by_cases hfor : testR forAt l.data = true
      · simp only [hfor, if_true]
        cases gasWindowFind lines idx with
        | none => simp
        | some i => simp
      · simp only [hfor]; simp
    · intro u hu v hv
      obtain ⟨k, i2, hk1, hk2, hk3, hk4⟩ := mem_detectGasGo lines t (idx + 1) v hdrop' hv
      by_cases hfor : testR forAt l.data = true
      · rw [if_pos hfor] at hu
        cases hw : gasWindowFind lines idx with
        | none => rw [hw] at hu; simp at hu
        | some i =>
          rw [hw] at hu
          simp only [List.mem_singleton] at hu
          have hmono : i ≤ i2 := gasWindowFind_mono hw hk3 (by omega)
          constructor
          · rw [hu, hk4]
            simp only [mkGas]
            omega
          · intro hid
            rw [hu, hk4] at hid
            simp only [mkGas] at hid
            exact absurd (id_append_inj hid) (by omega)
      · rw [if_neg hfor] at hu; simp at hu

lemma pairwise_detectGasInefficiency (lines : List String) :
    List.Pairwise (fun u v : Vulnerability => u.line ≤ v.line ∧ u.id ≠ v.id)
      (detectGasInefficiency lines) :=
  pairwise_detectGasGo lines lines 0 (by simp)

lemma pairwise_detectAccessGo (lines : List String) :
    ∀ (rest : List String) (idx st : Nat),
      lines.drop idx = rest →
      List.Pairwise (fun u v : Vulnerability => u.line ≤ v.line ∧ u.id ≠ v.id)
        (detectAccessGo lines rest idx st) := by
  intro rest
  induction rest with
  | nil => intro idx st _; simp [detectAccessGo]
  | cons l t ih =>
    intro idx st hdrop
    obtain ⟨hlen, hget, hdrop'⟩ := drop_facts hdrop
    simp only [detectAccessGo]
    apply List.pairwise_append.mpr
    refine ⟨?_, ih (idx + 1) _ hdrop', ?_⟩
    · by_cases hc : ((testG funcPubExtAt l.data st).1 && !testR modifierPatAt l.data) = true
      · simp only [hc, if_true]
        by_cases hac : hasAccessControlInFunction lines idx = true <;> simp [hac]
      · simp only [hc]; simp
    · intro u hu v hv
      obtain ⟨k, hk1, hk2, hk3⟩ := mem_detectAccessGo lines t (idx + 1) _ v hdrop' hv
      have hu' : u = mkAccess idx l := by
        by_cases hc : ((testG funcPubExtAt l.data st).1 && !testR modifierPatAt l.data) = true
        · rw [if_pos hc] at hu
          by_cases hac : hasAccessControlInFunction lines idx = true
          · simp only [hac, if_true] at hu; simp at hu
          · simp only [hac, if_false, Bool.false_eq_true, List.mem_singleton] at hu
            exact hu
        · rw [if_neg hc] at hu; simp at hu
      constructor
      · rw [hu', hk3]
        simp only [mkAccess]
        omega
      · intro hid
        rw [hu', hk3] at hid
        simp only [mkAccess] at hid
        exact absurd (id_append_inj hid) (by omega)

lemma pairwise_detectAccessControl (lines : List String) :
    List.Pairwise (fun u v : Vulnerability => u.line ≤ v.line ∧ u.id ≠ v.id)
      (detectAccessControl lines) :=
  pairwise_detectAccessGo lines lines 0 0 (by simp)

lemma pairwise_detectNatspecGo (lines : List String) :
    ∀ (rest : List String) (idx st : Nat),
      lines.drop idx = rest →
      List.Pairwise (fun u v : Vulnerability => u.line ≤ v.line ∧ u.id ≠ v.id)
        (detectNatspecGo lines rest idx st) := by
  intro rest
  induction rest with
  | nil => intro idx st _; simp [detectNatspecGo]
  | cons l t ih =>
    intro idx st hdrop
    obtain ⟨hlen, hget, hdrop'⟩ := drop_facts hdrop
    simp only [detectNatspecGo]
    apply List.pairwise_append.mpr
    refine ⟨?_, ih (idx + 1) _ hdrop', ?_⟩
    · by_cases hc : (testG funcNameAt l.data st).1 = true
      · simp only [hc, if_true]
        by_cases hns : hasNatSpecAbove lines idx = true <;> simp [hns]
      · simp only [hc]; simp
    · intro u hu v hv
      obtain ⟨k, hk1, hk2, hk3⟩ := mem_detectNatspecGo lines t (idx + 1) _ v hdrop' hv
      have hu' : u = mkNatspec idx l := by
        by_cases hc : (testG funcNameAt l.data st).1 = true
        · simp only [hc, if_true] at hu
          by_cases hns : hasNatSpecAbove lines idx = true
          · simp only [hns, if_true] at hu; simp at hu
          · simp only [hns, if_false, Bool.false_eq_true, List.mem_singleton] at hu
            exact hu
        · simp only [hc] at hu; simp at hu
      constructor
      · rw [hu', hk3]
        simp only [mkNatspec]
        omega
      · intro hid
        rw [hu', hk3] at hid
        simp only [mkNatspec] at hid
        exact absurd (id_append_inj hid) (by omega)

lemma pairwise_detectMissingNatSpec (lines : List String) :
    List.Pairwise (fun u v : Vulnerability => u.line ≤ v.line ∧ u.id ≠ v.id)
      (detectMissingNatSpec lines) :=
  pairwise_detectNatspecGo lines lines 0 0 (by simp)

/-! ## Assembling the whole report -/

lemma analyze_vulnerabilities (code : String) :
    (analyze code).vulnerabilities =
      detectReentrancy (splitLines code) ++
        detectOverflowUnderflow code (splitLines code) ++
        detectGasInefficiency (splitLines code) ++
        detectAccessControl (splitLines code) ++
        detectMissingNatSpec (splitLines code) := rfl

lemma detectorRank_mkReentrancy {lines : List String} {k : Nat} {l : String} :
    detectorRank (mkReentrancy lines k l) = 0 := by
  simp [detectorRank, mkReentrancy]

lemma detectorRank_mkOverflow {k : Nat} {l : String} :
    detectorRank (mkOverflow k l) = 1 := by
  simp only [detectorRank, mkOverflow]
  rw [if_neg (by decide)]
  simp

lemma detectorRank_mkGas {lines : List String} {k i : Nat} :
    detectorRank (mkGas lines k i) = 2 := by
  simp only [detectorRank, mkGas]
  rw [if_neg (by decide), if_neg (by decide)]
  simp

lemma detectorRank_mkAccess {k : Nat} {l : String} :
    detectorRank (mkAccess k l) = 3 := by
  simp only [detectorRank, mkAccess]
  rw [if_neg (by decide), if_neg (by decide), if_neg (by decide)]
  simp

lemma detectorRank_mkNatspec {k : Nat} {l : String} :
    detectorRank (mkNatspec k l) = 4 := by
  simp only [detectorRank, mkNatspec]
  rw [if_neg (by decide), if_neg (by decide), if_neg (by decide), if_neg (by decide)]

lemma mkReentrancy_id_head {lines : List String} {k : Nat} {l : String} :
    (mkReentrancy lines k l).id.data.head? = some 'r' :=
  head_append_of_ne_nil (p := "reentrancy-") rfl

lemma mkOverflow_id_head {k : Nat} {l : String} :
    (mkOverflow k l).id.data.head? = some 'o' :=
  head_append_of_ne_nil (p := "overflow-") rfl

lemma mkGas_id_head {lines : List String} {k i : Nat} :
    (mkGas lines k i).id.data.head? = some 'g' :=
  head_append_of_ne_nil (p := "gas-loop-") rfl

lemma mkAccess_id_head {k : Nat} {l : String} :
    (mkAccess k l).id.data.head? = some 'a' :=
  head_append_of_ne_nil (p := "access-") rfl

lemma mkNatspec_id_head {k : Nat} {l : String} :
    (mkNatspec k l).id.data.head? = some 'n' :=
  head_append_of_ne_nil (p := "natspec-") rfl

lemma ne_id_of_heads {u v : Vulnerability} {cu cv : Char}
    (hu : u.id.data.head? = some cu) (hv : v.id.data.head? = some cv) (h : cu ≠ cv) :
    u.id ≠ v.id := by
  apply ne_of_head_ne
  rw [hu, hv]
  simp [h]

lemma pairwise_append_five {α : Type} {R : α → α → Prop} {b1 b2 b3 b4 b5 : List α}
    (h1 : List.Pairwise R b1) (h2 : List.Pairwise R b2) (h3 : List.Pairwise R b3)
    (h4 : List.Pairwise R b4) (h5 : List.Pairwise R b5)
    (c12 : ∀ u ∈ b1, ∀ v ∈ b2, R u v) (c13 : ∀ u ∈ b1, ∀ v ∈ b3, R u v)
    (c14 : ∀ u ∈ b1, ∀ v ∈ b4, R u v) (c15 : ∀ u ∈ b1, ∀ v ∈ b5, R u v)
    (c23 : ∀ u ∈ b2, ∀ v ∈ b3, R u v) (c24 : ∀ u ∈ b2, ∀ v ∈ b4, R u v)
    (c25 : ∀ u ∈ b2, ∀ v ∈ b5, R u v) (c34 : ∀ u ∈ b3, ∀ v ∈ b4, R u v)
    (c35 : ∀ u ∈ b3, ∀ v ∈ b5, R u v) (c45 : ∀ u ∈ b4, ∀ v ∈ b5, R u v) :
    List.Pairwise R (b1 ++ b2 ++ b3 ++ b4 ++ b5) := by
  apply List.pairwise_append.mpr
  refine ⟨?_, h5, ?_⟩
  · apply List.pairwise_append.mpr
    refine ⟨?_, h4, ?_⟩
    · apply List.pairwise_append.mpr
      refine ⟨List.pairwise_append.mpr ⟨h1, h2, c12⟩, h3, ?_⟩
      intro u hu v hv
      rcases List.mem_append.mp hu with h | h
      exacts [c13 u h v hv, c23 u h v hv]
    · intro u hu v hv
      rcases List.mem_append.mp hu with h | h
      · rcases List.mem_append.mp h with h' | h'
        exacts [c14 u h' v hv, c24 u h' v hv]
      · exact c34 u h v hv
  · intro u hu v hv
    rcases List.mem_append.mp hu with h | h
    · rcases List.mem_append.mp h with h' | h'
      · rcases List.mem_append.mp h' with h'' | h''
        exacts [c15 u h'' v hv, c25 u h'' v hv]
      · exact c35 u h' v hv
    · exact c45 u h v hv

/-! ## The gas detector agrees with its spec formulation -/

lemma find?_cons_ite {α : Type} (p : α → Bool) (a : α) (l : List α) :
    (a :: l).find? p = if p a then some a else l.find? p := by
  rw [List.find?_cons]
  cases p a <;> simp

lemma gasScanGo_eq_find (lines : List String) :
    ∀ (fuel i : Nat),
      gasScanGo lines i fuel =
        (List.range' i fuel).find? fun j => testR storageAt ((lines.getD j "").data) := by
  intro fuel
  induction fuel with
  | zero => intro i; simp [gasScanGo]
  | succ f ih =>
    intro i
    rw [List.range'_succ, find?_cons_ite]
    cases hp : testR storageAt ((lines.getD i "").data) with
    | true => simp only [gasScanGo, hp, if_true]
    | false =>
      simp only [gasScanGo, hp, Bool.false_eq_true, if_false]
      exact ih (i + 1)

lemma gasWindowFind_eq_spec (lines : List String) (idx : Nat) :
    gasWindowFind lines idx = gasSpecFind lines idx := by
  rw [gasWindowFind, gasSpecFind, gasScanGo_eq_find]

lemma detectGasGo_eq_spec (lines : List String) :
    ∀ (rest : List String) (idx : Nat), lines.drop idx = rest →
      detectGasGo lines rest idx =
        ((List.range' idx rest.length).map fun k =>
          if testR forAt ((lines.getD k "").data) then
            match gasSpecFind lines k with
            | some i => [mkGas lines k i]
            | none => []
          else []).flatten := by
  intro rest
  induction rest with
  | nil => intro idx _; simp [detectGasGo]
  | cons l t ih =>
    intro idx hdrop
    obtain ⟨hlen, hget, hdrop'⟩ := drop_facts hdrop
    simp only [detectGasGo, List.length_cons, List.range'_succ, List.map_cons,
      List.flatten_cons]
    rw [hget, ← gasWindowFind_eq_spec, ← ih (idx + 1) hdrop']

lemma detectGasInefficiency_eq_spec (lines : List String) :
    detectGasInefficiency lines = detectGasSpec lines := by
  rw [detectGasInefficiency, detectGasSpec,
    detectGasGo_eq_spec lines lines 0 (by simp), List.range_eq_range']

/-! ## Scoring lemmas -/

lemma severityWeight_nonneg (s : Severity) : 0 ≤ severityWeight s := by
  cases s <;> norm_num [severityWeight]

lemma penalties_eq (vulns : List Vulnerability) :
    penalties vulns =
      (keywordPenalty titleSecurity vulns, keywordPenalty titleGas vulns,
       keywordPenalty titlePerformance vulns, qualityPenalty vulns,
       keywordPenalty titleDoc vulns) := by
  induction vulns with
  | nil => simp [penalties, keywordPenalty, qualityPenalty]
  | cons v t ih => simp [penalties, keywordPenalty, qualityPenalty, ih]

lemma keywordPenalty_nonneg (p : String → Bool) (vulns : List Vulnerability) :
    0 ≤ keywordPenalty p vulns := by
  induction vulns with
  | nil => simp [keywordPenalty]
  | cons v t ih =>
    simp only [keywordPenalty, List.map_cons, List.sum_cons]
    have h : (0 : ℚ) ≤ if p v.title then severityWeight v.severity else 0 := by
      by_cases hc : p v.title = true
      · simp [hc, severityWeight_nonneg]
      · simp [hc]
    exact add_nonneg h ih

lemma qualityPenalty_nonneg (vulns : List Vulnerability) : 0 ≤ qualityPenalty vulns := by
  induction vulns with
  | nil => simp [qualityPenalty]
  | cons v t ih =>
    simp only [qualityPenalty, List.map_cons, List.sum_cons]
    have h : (0 : ℚ) ≤ severityWeight v.severity * (3 / 10) := by
      have := severityWeight_nonneg v.severity
      positivity
    exact add_nonneg h ih

lemma bucketScore_ge_one (p : ℚ) : 1 ≤ bucketScore p := le_max_left _ _

lemma bucketScore_le_ten {p : ℚ} (hp : 0 ≤ p) : bucketScore p ≤ 10 := by
  apply max_le (by norm_num)
  have h1 : (0 : ℚ) ≤ min 40 p := le_min (by norm_num) hp
  linarith

lemma calculateScores_eq_spec (vulns : List Vulnerability) :
    calculateScores vulns = scoresSpec vulns := by
  rw [calculateScores, scoresSpec, penalties_eq]

lemma calculateOverallScore_eq_spec (s : AuditScores) :
    calculateOverallScore s = roundTo1 (weightedSpec s) := by
  simp only [calculateOverallScore, roundTo1]
  congr 2
  rw [weightedSpec]
  ring_nf

/-- The version gate of `detectOverflowUnderflow`: either test passing
disables the whole detector. -/
lemma overflow_gate (code : String) (lines : List String)
    (h : testR safeMathAt code.data = true ∨ testR pragmaAt code.data = true) :
    detectOverflowUnderflow code lines = [] := by
  rw [detectOverflowUnderflow]
  rcases h with h | h <;> simp [h]

/-! ## Claim theorems -/

/-- C1: the claim says the reentrancy severity is Critical iff one of the
**5** lines immediately following the call matches a state-mutation
pattern.  The loop of `hasStateModificationAfterCall` runs `i` from
`callLineIndex + 1` while `i < callLineIndex + 5`, scanning only the 4
following lines, although its own comment says "the next 5 lines": on
`windowSrc` the only mutation is on line 6 — the fifth line after the call
on line 1 — and the finding is High, where the claim (and the code's
comment) requires Critical. -/
theorem reentrancy_mutation_window_stops_short :
    (detectReentrancy (splitLines windowSrc)).map (fun v => (v.line, v.severity)) =
        [(1, Severity.High)] ∧
      stateModPattern ((splitLines windowSrc).getD 5 "") = true ∧
      hasStateModificationAfterCall (splitLines windowSrc) 0 = false := by
  decide

/-- C2 (counterexample): on the spec's own test input — the call on line 5,
`balance -= amt;` on line 7 — no Critical finding at line 5 is produced:
`balance -= amt;` matches none of `\w+\s*=`, `\w+\+\+`, `\w+--` (the `-`
sits between the identifier and the `=`), so the window finds no state
mutation. -/
theorem reentrancy_spec_test_not_critical :
    ¬ ∃ v ∈ (analyze reentrancySrc).vulnerabilities,
        v.severity = Severity.Critical ∧ v.line = 5 := by
  decide

/-- C2 (amended): on that input the report consists of exactly one finding,
at line 5 with severity High. -/
theorem reentrancy_spec_test_yields_high :
    (analyze reentrancySrc).vulnerabilities.map (fun v => (v.line, v.severity, v.id)) =
      [(5, Severity.High, "reentrancy-4")] := by
  decide

/-- C3: the claim says every line matching a reentrancy pattern yields a
finding for that pattern.  The detector's patterns are `g`-flagged regex
objects reused across lines, so `lastIndex` survives from line to line:
with two identical lines `a.send(b);`, the first match leaves
`lastIndex = 7`, the test on the second line starts there, fails, and the
second matching line produces no finding at all. -/
theorem stateful_regex_skips_matching_line :
    (detectReentrancy doubleSendLines).map (fun v => v.line) = [1] ∧
      testR sendAt ((doubleSendLines.getD 1 "").data) = true := by
  decide

/-- C4: whenever the whole source has a SafeMath marker or a `>= 0.8`
solidity pragma (as recognized by the detector's two gate regexes), the
Overflow/Underflow detector returns no findings; in particular the source
`pragma solidity ^0.8.4;` + `a + b` yields none although it has no
SafeMath. -/
theorem overflow_detector_version_gate :
    (∀ (code : String) (lines : List String),
        testR safeMathAt code.data = true ∨ testR pragmaAt code.data = true →
        detectOverflowUnderflow code lines = []) ∧
      detectOverflowUnderflow pragmaSrc (splitLines pragmaSrc) = [] ∧
      testR safeMathAt pragmaSrc.data = false := by
  refine ⟨fun code lines h => overflow_gate code lines h, by decide, by decide⟩

/-- C4 (witness): the gate theorem applied at the concrete modern-pragma
source. -/
theorem overflow_detector_version_gate_witness :
    testR pragmaAt pragmaSrc.data = true ∧
      detectOverflowUnderflow pragmaSrc (splitLines pragmaSrc) = [] :=
  ⟨by decide,
    overflow_detector_version_gate.1 pragmaSrc (splitLines pragmaSrc) (Or.inr (by decide))⟩

/-- C5 (counterexample): the claim says the gas detector scans the **10
lines following** a `for (` line.  On `gasLines` the loop header is line 1
and the only storage-array assignment is line 11 — the tenth following
line — yet no finding is produced, because the loop scans `i` from `index`
(the `for` line itself) while `i < index + 10`, i.e. the header line plus
only the 9 following lines. -/
theorem gas_window_counterexample :
    detectGasInefficiency gasLines = [] ∧
      testR forAt ((gasLines.getD 0 "").data) = true ∧
      testR storageAt ((gasLines.getD 10 "").data) = true := by
  decide

/-- C5 (amended): for every line opening a `for (` loop, the detector scans
the 10-line window starting at the loop line itself (the header and the 9
following lines); at the first line of that window matching the
storage-array-assignment pattern it emits exactly one Low finding whose
line field is that line's 1-based number, and reports no further hits for
that loop.  `detectGasSpec` states exactly this window discipline. -/
theorem gas_detector_window_amended :
    ∀ lines : List String, detectGasInefficiency lines = detectGasSpec lines :=
  detectGasInefficiency_eq_spec

/-- C6: every bucket score equals `max 1 (10 - min 40 penalty / 4)` where
the penalty is the sum of severity weights (Critical 10, High 7, Medium 5,
Low 3, Info 1) of the findings routed to the bucket by title keywords,
every finding contributing 30% of its weight to codeQuality; consequently
all five scores lie in `[1, 10]`. -/
theorem bucket_scores_formula_and_range :
    ∀ vulns : List Vulnerability,
      calculateScores vulns = scoresSpec vulns ∧
        (1 ≤ (calculateScores vulns).security ∧ (calculateScores vulns).security ≤ 10) ∧
        (1 ≤ (calculateScores vulns).gasEfficiency ∧
          (calculateScores vulns).gasEfficiency ≤ 10) ∧
        (1 ≤ (calculateScores vulns).performance ∧
          (calculateScores vulns).performance ≤ 10) ∧
        (1 ≤ (calculateScores vulns).codeQuality ∧
          (calculateScores vulns).codeQuality ≤ 10) ∧
        (1 ≤ (calculateScores vulns).documentation ∧
          (calculateScores vulns).documentation ≤ 10) := by
  intro vulns
  have he := calculateScores_eq_spec vulns
  refine ⟨he, ?_⟩
  rw [he]
  simp only [scoresSpec]
  exact
    ⟨⟨bucketScore_ge_one _, bucketScore_le_ten (keywordPenalty_nonneg _ _)⟩,
     ⟨bucketScore_ge_one _, bucketScore_le_ten (keywordPenalty_nonneg _ _)⟩,
     ⟨bucketScore_ge_one _, bucketScore_le_ten (keywordPenalty_nonneg _ _)⟩,
     ⟨bucketScore_ge_one _, bucketScore_le_ten (qualityPenalty_nonneg _)⟩,
     ⟨bucketScore_ge_one _, bucketScore_le_ten (keywordPenalty_nonneg _ _)⟩⟩

/-- C7: the overall score is the weighted sum
`0.30*security + 0.20*gasEfficiency + 0.20*performance + 0.20*codeQuality
+ 0.10*documentation` rounded to one decimal place, and for the scores
`{8, 7, 7.5, 8.5, 6}` it equals 7.6. -/
theorem overall_score_weighted_round :
    (∀ s : AuditScores, calculateOverallScore s = roundTo1 (weightedSpec s)) ∧
      calculateOverallScore ⟨8, 7, 15 / 2, 17 / 2, 6⟩ = (7.6 : ℚ) := by
  refine ⟨calculateOverallScore_eq_spec, ?_⟩
  norm_num [calculateOverallScore]

/-- C8: the report's findings are ordered by detector execution order
(Reentrancy, Overflow/Underflow, Gas, Access-Control, NatSpec — detectors
recognizable by their fixed titles) and, within one detector's block, by
non-decreasing line number. -/
theorem findings_order_detector_then_line (code : String) :
    List.Pairwise
      (fun u v : Vulnerability =>
        detectorRank u < detectorRank v ∨
          (detectorRank u = detectorRank v ∧ u.line ≤ v.line))
      (analyze code).vulnerabilities := by
  rw [analyze_vulnerabilities]
  apply pairwise_append_five
  · refine List.Pairwise.imp_of_mem ?_ (pairwise_detectReentrancy _)
    intro u v hu hv h
    obtain ⟨k1, _, hu'⟩ := mem_detectReentrancy hu
    obtain ⟨k2, _, hv'⟩ := mem_detectReentrancy hv
    exact Or.inr
      ⟨by rw [hu', hv', detectorRank_mkReentrancy, detectorRank_mkReentrancy], h.1⟩
  · refine List.Pairwise.imp_of_mem ?_ (pairwise_detectOverflowUnderflow _ _)
    intro u v hu hv h
    obtain ⟨k1, _, hu'⟩ := mem_detectOverflowUnderflow hu
    obtain ⟨k2, _, hv'⟩ := mem_detectOverflowUnderflow hv
    exact Or.inr ⟨by rw [hu', hv', detectorRank_mkOverflow, detectorRank_mkOverflow], h.1⟩
  · refine List.Pairwise.imp_of_mem ?_ (pairwise_detectGasInefficiency _)
    intro u v hu hv h
    obtain ⟨k1, i1, _, _, hu'⟩ := mem_detectGasInefficiency hu
    obtain ⟨k2, i2, _, _, hv'⟩ := mem_detectGasInefficiency hv
    exact Or.inr ⟨by rw [hu', hv', detectorRank_mkGas, detectorRank_mkGas], h.1⟩
  · refine List.Pairwise.imp_of_mem ?_ (pairwise_detectAccessControl _)
    intro u v hu hv h
    obtain ⟨k1, _, hu'⟩ := mem_detectAccessControl hu
    obtain ⟨k2, _, hv'⟩ := mem_detectAccessControl hv
    exact Or.inr ⟨by rw [hu', hv', detectorRank_mkAccess, detectorRank_mkAccess], h.1⟩
  · refine List.Pairwise.imp_of_mem ?_ (pairwise_detectMissingNatSpec _)
    intro u v hu hv h
    obtain ⟨k1, _, hu'⟩ := mem_detectMissingNatSpec hu
    obtain ⟨k2, _, hv'⟩ := mem_detectMissingNatSpec hv
    exact Or.inr ⟨by rw [hu', hv', detectorRank_mkNatspec, detectorRank_mkNatspec], h.1⟩
  · intro u hu v hv
    obtain ⟨k1, _, hu'⟩ := mem_detectReentrancy hu
    obtain ⟨k2, _, hv'⟩ := mem_detectOverflowUnderflow hv
    exact Or.inl
      (by rw [hu', hv', detectorRank_mkReentrancy, detectorRank_mkOverflow]; omega)
  · intro u hu v hv
    obtain ⟨k1, _, hu'⟩ := mem_detectReentrancy hu
    obtain ⟨k2, i2, _, _, hv'⟩ := mem_detectGasInefficiency hv
    exact Or.inl (by rw [hu', hv', detectorRank_mkReentrancy, detectorRank_mkGas]; omega)
  · intro u hu v hv
    obtain ⟨k1, _, hu'⟩ := mem_detectReentrancy hu
    obtain ⟨k2, _, hv'⟩ := mem_detectAccessControl hv
    exact Or.inl (by rw [hu', hv', detectorRank_mkReentrancy, detectorRank_mkAccess]; omega)
  · intro u hu v hv
    obtain ⟨k1, _, hu'⟩ := mem_detectReentrancy hu
    obtain ⟨k2, _, hv'⟩ := mem_detectMissingNatSpec hv
    exact Or.inl (by rw [hu', hv', detectorRank_mkReentrancy, detectorRank_mkNatspec]; omega)
  · intro u hu v hv
    obtain ⟨k1, _, hu'⟩ := mem_detectOverflowUnderflow hu
    obtain ⟨k2, i2, _, _, hv'⟩ := mem_detectGasInefficiency hv
    exact Or.inl (by rw [hu', hv', detectorRank_mkOverflow, detectorRank_mkGas]; omega)
  · intro u hu v hv
    obtain ⟨k1, _, hu'⟩ := mem_detectOverflowUnderflow hu
    obtain ⟨k2, _, hv'⟩ := mem_detectAccessControl hv
    exact Or.inl (by rw [hu', hv', detectorRank_mkOverflow, detectorRank_mkAccess]; omega)
  · intro u hu v hv
    obtain ⟨k1, _, hu'⟩ := mem_detectOverflowUnderflow hu
    obtain ⟨k2, _, hv'⟩ := mem_detectMissingNatSpec hv
    exact Or.inl (by rw [hu', hv', detectorRank_mkOverflow, detectorRank_mkNatspec]; omega)
  · intro u hu v hv
    obtain ⟨k1, i1, _, _, hu'⟩ := mem_detectGasInefficiency hu
    obtain ⟨k2, _, hv'⟩ := mem_detectAccessControl hv
    exact Or.inl (by rw [hu', hv', detectorRank_mkGas, detectorRank_mkAccess]; omega)
  · intro u hu v hv
    obtain ⟨k1, i1, _, _, hu'⟩ := mem_detectGasInefficiency hu
    obtain ⟨k2, _, hv'⟩ := mem_detectMissingNatSpec hv
    exact Or.inl (by rw [hu', hv', detectorRank_mkGas, detectorRank_mkNatspec]; omega)
  · intro u hu v hv
    obtain ⟨k1, _, hu'⟩ := mem_detectAccessControl hu
    obtain ⟨k2, _, hv'⟩ := mem_detectMissingNatSpec hv
    exact Or.inl (by rw [hu', hv', detectorRank_mkAccess, detectorRank_mkNatspec]; omega)

/-- C9 (counterexample): the ids are not pairwise distinct within one
report: a line matching both `.send(` and `.transfer(` yields two findings
with the same id `reentrancy-0`. -/
theorem duplicate_finding_ids :
    ¬ ((analyze twoPatternSrc).vulnerabilities.map fun v => v.id).Nodup := by
  decide

/-- C9 (amended): two distinct findings of one report can share an id only
when both are reentrancy findings originating from the same line (one
pushed per matching pattern); ids are distinct otherwise. -/
theorem finding_ids_distinct_amended (code : String) :
    List.Pairwise
      (fun u v : Vulnerability =>
        u.id = v.id →
          u.title = reentrancyTitle ∧ v.title = reentrancyTitle ∧ u.line = v.line)
      (analyze code).vulnerabilities := by
  rw [analyze_vulnerabilities]
  apply pairwise_append_five
  · refine List.Pairwise.imp_of_mem ?_ (pairwise_detectReentrancy _)
    intro u v hu hv h hid
    obtain ⟨k1, _, hu'⟩ := mem_detectReentrancy hu
    obtain ⟨k2, _, hv'⟩ := mem_detectReentrancy hv
    exact ⟨by rw [hu']; rfl, by rw [hv']; rfl, h.2 hid⟩
  · refine List.Pairwise.imp_of_mem ?_ (pairwise_detectOverflowUnderflow _ _)
    intro u v _ _ h hid
    exact absurd hid h.2
  · refine List.Pairwise.imp_of_mem ?_ (pairwise_detectGasInefficiency _)
    intro u v _ _ h hid
    exact absurd hid h.2
  · refine List.Pairwise.imp_of_mem ?_ (pairwise_detectAccessControl _)
    intro u v _ _ h hid
    exact absurd hid h.2
  · refine List.Pairwise.imp_of_mem ?_ (pairwise_detectMissingNatSpec _)
    intro u v _ _ h hid
    exact absurd hid h.2
  · intro u hu v hv hid
    obtain ⟨k1, _, hu'⟩ := mem_detectReentrancy hu
    obtain ⟨k2, _, hv'⟩ := mem_detectOverflowUnderflow hv
    exact absurd hid
      (ne_id_of_heads (by rw [hu']; exact mkReentrancy_id_head)
        (by rw [hv']; exact mkOverflow_id_head) (by decide))
  · intro u hu v hv hid
    obtain ⟨k1, _, hu'⟩ := mem_detectReentrancy hu
    obtain ⟨k2, i2, _, _, hv'⟩ := mem_detectGasInefficiency hv
    exact absurd hid
      (ne_id_of_heads (by rw [hu']; exact mkReentrancy_id_head)
        (by rw [hv']; exact mkGas_id_head) (by decide))
  · intro u hu v hv hid
    obtain ⟨k1, _, hu'⟩ := mem_detectReentrancy hu
    obtain ⟨k2, _, hv'⟩ := mem_detectAccessControl hv
    exact absurd hid
      (ne_id_of_heads (by rw [hu']; exact mkReentrancy_id_head)
        (by rw [hv']; exact mkAccess_id_head) (by decide))
  · intro u hu v hv hid
    obtain ⟨k1, _, hu'⟩ := mem_detectReentrancy hu
    obtain ⟨k2, _, hv'⟩ := mem_detectMissingNatSpec hv
    exact absurd hid
      (ne_id_of_heads (by rw [hu']; exact mkReentrancy_id_head)
        (by rw [hv']; exact mkNatspec_id_head) (by decide))
  · intro u hu v hv hid
    obtain ⟨k1, _, hu'⟩ := mem_detectOverflowUnderflow hu
    obtain ⟨k2, i2, _, _, hv'⟩ := mem_detectGasInefficiency hv
    exact absurd hid
      (ne_id_of_heads (by rw [hu']; exact mkOverflow_id_head)
        (by rw [hv']; exact mkGas_id_head) (by decide))
  · intro u hu v hv hid
    obtain ⟨k1, _, hu'⟩ := mem_detectOverflowUnderflow hu
    obtain ⟨k2, _, hv'⟩ := mem_detectAccessControl hv
    exact absurd hid
      (ne_id_of_heads (by rw [hu']; exact mkOverflow_id_head)
        (by rw [hv']; exact mkAccess_id_head) (by decide))
  · intro u hu v hv hid
    obtain ⟨k1, _, hu'⟩ := mem_detectOverflowUnderflow hu
    obtain ⟨k2, _, hv'⟩ := mem_detectMissingNatSpec hv
    exact absurd hid
      (ne_id_of_heads (by rw [hu']; exact mkOverflow_id_head)
        (by rw [hv']; exact mkNatspec_id_head) (by decide))
  · intro u hu v hv hid
    obtain ⟨k1, i1, _, _, hu'⟩ := mem_detectGasInefficiency hu
    obtain ⟨k2, _, hv'⟩ := mem_detectAccessControl hv
    exact absurd hid
      (ne_id_of_heads (by rw [hu']; exact mkGas_id_head)
        (by rw [hv']; exact mkAccess_id_head) (by decide))
  · intro u hu v hv hid
    obtain ⟨k1, i1, _, _, hu'⟩ := mem_detectGasInefficiency hu
    obtain ⟨k2, _, hv'⟩ := mem_detectMissingNatSpec hv
    exact absurd hid
      (ne_id_of_heads (by rw [hu']; exact mkGas_id_head)
        (by rw [hv']; exact mkNatspec_id_head) (by decide))
  · intro u hu v hv hid
    obtain ⟨k1, _, hu'⟩ := mem_detectAccessControl hu
    obtain ⟨k2, _, hv'⟩ := mem_detectMissingNatSpec hv
    exact absurd hid
      (ne_id_of_heads (by rw [hu']; exact mkAccess_id_head)
        (by rw [hv']; exact mkNatspec_id_head) (by decide))

/-- C10: every finding's line number is between 1 and the number of lines
of the source (split on newlines), and its `code` snippet is the trimmed
content of that line. -/
theorem finding_line_and_snippet_valid (code : String) (v : Vulnerability)
    (hv : v ∈ (analyze code).vulnerabilities) :
    1 ≤ v.line ∧ v.line ≤ (splitLines code).length ∧
      v.code = trimChars ((splitLines code).getD (v.line - 1) "") := by
  rw [analyze_vulnerabilities] at hv
  rcases List.mem_append.mp hv with hv | hv
  rotate_left
  · obtain ⟨k, hk, hv'⟩ := mem_detectMissingNatSpec hv
    rw [hv']
    simp only [mkNatspec, Nat.add_sub_cancel]
    exact ⟨by omega, by omega, trivial⟩
  rcases List.mem_append.mp hv with hv | hv
  rotate_left
  · obtain ⟨k, hk, hv'⟩ := mem_detectAccessControl hv
    rw [hv']
    simp only [mkAccess, Nat.add_sub_cancel]
    exact ⟨by omega, by omega, trivial⟩
  rcases List.mem_append.mp hv with hv | hv
  rotate_left
  · obtain ⟨k, i, hk, hw, hv'⟩ := mem_detectGasInefficiency hv
    obtain ⟨_, hi, _, _, _⟩ := gasWindowFind_some hw
    rw [hv']
    simp only [mkGas, Nat.add_sub_cancel]
    exact ⟨by omega, by omega, trivial⟩
  rcases List.mem_append.mp hv with hv | hv
  · obtain ⟨k, hk, hv'⟩ := mem_detectReentrancy hv
    rw [hv']
    simp only [mkReentrancy, Nat.add_sub_cancel]
    exact ⟨by omega, by omega, trivial⟩
  · obtain ⟨k, hk, hv'⟩ := mem_detectOverflowUnderflow hv
    rw [hv']
    simp only [mkOverflow, Nat.add_sub_cancel]
    exact ⟨by omega, by omega, trivial⟩

/-- C10 (witness): the invariant theorem applied to the single finding of
`analyze "a.transfer(b);"`. -/
theorem finding_line_and_snippet_valid_witness :
    1 ≤ transferFinding.line ∧
      transferFinding.line ≤ (splitLines transferSrc).length ∧
      transferFinding.code =
        trimChars ((splitLines transferSrc).getD (transferFinding.line - 1) "") :=
  finding_line_and_snippet_valid transferSrc transferFinding (by decide)

end AuditX
